import Mathlib

/-!
# Verification of the JSON-backed Inventory component (`semana 11/inventario.py`)

Shallow embedding of the `Producto` / `Inventario` classes.

Modelling conventions:
* Python `dict` (insertion-ordered, unique keys) is an association list
  `List (String × β)`; assignment replaces in place, new keys append.
* Python `set[str]` is a duplicate-free `List String`; `set.add` appends when
  absent, `set.discard` filters the element out.
* Python exceptions (`ValueError`, `KeyError`) become a `PyError` value; an
  operation returns `Except PyError α × Inventario`, the second component being
  the state at the moment the call returns or the exception escapes, so partial
  mutations made before a raise are kept, exactly as in Python.
* `precio` (a Python `float` used only with non-negativity checks and exact
  round-trips in this component) is embedded as `Rat`; `cantidad` as `Int`.
* File I/O is factored out: `guardar_en_json` returns the serialized document
  and `cargar_de_json` consumes an already-parsed document (`JsonDoc`); a JSON
  root that is not a list is `JsonDoc.noLista`.
* Python's `self._items[i]` inside search is embedded as a lookup skipping
  absent ids (`filterMap`); under the maintained invariant the id is always
  present, so the two agree.
* Error-message strings follow the source; the single quotes around
  interpolated values are the escaped character `\x27`.
-/

/-- Python dict lookup `m.get(k)`. -/
def mapGet {β : Type} : List (String × β) → String → Option β
  | [], _ => none
  | (k', v) :: rest, k => if k' = k then some v else mapGet rest k

/-- Python dict assignment `m[k] = v`: replace in place, else append. -/
def dictSet {β : Type} : List (String × β) → String → β → List (String × β)
  | [], k, v => [(k, v)]
  | (k', v') :: rest, k, v =>
      if k' = k then (k, v) :: rest else (k', v') :: dictSet rest k v

/-- Python `m.pop(k, None)` restricted to its effect on the dict. -/
def dictRemove {β : Type} : List (String × β) → String → List (String × β)
  | [], _ => []
  | (k', v') :: rest, k => if k' = k then rest else (k', v') :: dictRemove rest k

/-- Python `s.add(x)` on a set of ids. -/
def setAdd (s : List String) (x : String) : List String :=
  if x ∈ s then s else s ++ [x]

/-- Python `s.discard(x)` on a set of ids. -/
def setDiscard (s : List String) (x : String) : List String :=
  s.filter (fun y => y ≠ x)

/-- Prefix test on character lists, for embedding Python's `in` on strings. -/
def leadMatch : List Char → List Char → Bool
  | [], _ => true
  | _ :: _, [] => false
  | c :: cs, d :: ds => c = d && leadMatch cs ds

/-- Substring test on character lists. -/
def subMatch (q : List Char) : List Char → Bool
  | [] => leadMatch q []
  | d :: ds => leadMatch q (d :: ds) || subMatch q ds

/-- Python `q in s` for strings (substring containment). -/
def contiene (q s : String) : Bool :=
  subMatch q.data s.data

/-- Python exceptions raised by the component. -/
inductive PyError : Type
  | valueError (msg : String)
  | keyError (msg : String)
deriving DecidableEq, Repr

deriving instance DecidableEq for Except

/-- `@dataclass(frozen=True) class Producto`: id, nombre, cantidad, precio. -/
structure Producto : Type where
  id : String
  nombre : String
  cantidad : Int
  precio : Rat
deriving DecidableEq, Repr

namespace Producto

/-- The four `__post_init__` checks, in source order. -/
def build (id nombre : String) (cantidad : Int) (precio : Rat) :
    Except PyError Producto :=
  if id = "" then
    .error (.valueError "ID de producto inválido (debe ser cadena no vacía)")
  else if nombre = "" then
    .error (.valueError "Nombre de producto inválido (debe ser cadena no vacía)")
  else if cantidad < 0 then
    .error (.valueError "Cantidad inválida (entero >= 0)")
  else if precio < 0 then
    .error (.valueError "Precio inválido (número >= 0)")
  else
    .ok ⟨id, nombre, cantidad, precio⟩

/-- The validity condition `__post_init__` enforces. -/
def valido (p : Producto) : Prop :=
  p.id ≠ "" ∧ p.nombre ≠ "" ∧ 0 ≤ p.cantidad ∧ 0 ≤ p.precio

instance (p : Producto) : Decidable p.valido := by
  unfold valido; infer_instance

/-- `con_cantidad`: a fresh instance, re-running validation. -/
def con_cantidad (p : Producto) (nueva_cantidad : Int) : Except PyError Producto :=
  build p.id p.nombre nueva_cantidad p.precio

/-- `con_precio`: a fresh instance, re-running validation. -/
def con_precio (p : Producto) (nuevo_precio : Rat) : Except PyError Producto :=
  build p.id p.nombre p.cantidad nuevo_precio

/-- `con_nombre`: a fresh instance, re-running validation. -/
def con_nombre (p : Producto) (nuevo_nombre : String) : Except PyError Producto :=
  build p.id nuevo_nombre p.cantidad p.precio

end Producto

/-- `class Inventario`: primary map `_items` and name index `_by_name`. -/
structure Inventario : Type where
  items : List (String × Producto)
  byName : List (String × List String)
deriving DecidableEq, Repr

namespace Inventario

/-- The empty inventory built by `__init__`. -/
def vacio : Inventario := ⟨[], []⟩

/-- Lowercasing of one character, as Python `str.lower` acts on the ASCII
range (all names in this development are ASCII). -/
def bajar (c : Char) : Char :=
  if 'A' ≤ c ∧ c ≤ 'Z' then Char.ofNat (c.toNat + 32) else c

/-- `strip()` on a character list: drop leading and trailing whitespace. -/
def stripChars (l : List Char) : List Char :=
  ((l.dropWhile Char.isWhitespace).reverse.dropWhile Char.isWhitespace).reverse

/-- `_norm_name`: `nombre.strip().lower()`. -/
def norm_name (nombre : String) : String :=
  ⟨(stripChars nombre.data).map bajar⟩

/-- `_index_add`: ensure the bucket for `norm_name p.nombre` exists, then add
the id to it (an absent bucket starts empty). -/
def index_add (inv : Inventario) (p : Producto) : Inventario :=
  Inventario.mk inv.items
    (dictSet inv.byName (norm_name p.nombre)
      (setAdd ((mapGet inv.byName (norm_name p.nombre)).getD []) p.id))

/-- `_index_remove`: discard the id from the bucket of the product's
normalized name; pop the bucket when it becomes empty. Python's `if ids:`
is falsy both when the key is absent (`None`) and when the set is empty, so
the guard is `(get key).getD [] = []`. -/
def index_remove (inv : Inventario) (p : Producto) : Inventario :=
  if (mapGet inv.byName (norm_name p.nombre)).getD [] = [] then inv
  else if setDiscard ((mapGet inv.byName (norm_name p.nombre)).getD []) p.id = [] then
    Inventario.mk inv.items (dictRemove inv.byName (norm_name p.nombre))
  else
    Inventario.mk inv.items
      (dictSet inv.byName (norm_name p.nombre)
        (setDiscard ((mapGet inv.byName (norm_name p.nombre)).getD []) p.id))

def msgYaExiste (id : String) : String :=
  "Ya existe un producto con ID \x27" ++ id ++ "\x27."

def msgNoExiste (id : String) : String :=
  "No existe producto con ID \x27" ++ id ++ "\x27."

/-- `agregar(producto, sobrescribir)`. -/
def agregar (inv : Inventario) (producto : Producto) (sobrescribir : Bool) :
    Except PyError Unit × Inventario :=
  match mapGet inv.items producto.id with
  | some existe =>
    if !sobrescribir then
      (.error (.valueError (msgYaExiste producto.id)), inv)
    else
      let inv1 := index_remove inv existe
      let inv2 := { inv1 with items := dictSet inv1.items producto.id producto }
      (.ok (), index_add inv2 producto)
  | none =>
    let inv2 := { inv with items := dictSet inv.items producto.id producto }
    (.ok (), index_add inv2 producto)

/-- `eliminar(id_)`. -/
def eliminar (inv : Inventario) (id_ : String) :
    Except PyError Producto × Inventario :=
  match mapGet inv.items id_ with
  | none => (.error (.keyError (msgNoExiste id_)), inv)
  | some p =>
    let inv1 := { inv with items := dictRemove inv.items id_ }
    (.ok p, index_remove inv1 p)

/-- `obtener_por_id(id_)` (read-only). -/
def obtener_por_id (inv : Inventario) (id_ : String) : Except PyError Producto :=
  match mapGet inv.items id_ with
  | none => .error (.keyError (msgNoExiste id_))
  | some p => .ok p

/-- `actualizar_cantidad(id_, nueva_cantidad)`. -/
def actualizar_cantidad (inv : Inventario) (id_ : String) (nueva_cantidad : Int) :
    Except PyError Producto × Inventario :=
  match mapGet inv.items id_ with
  | none => (.error (.keyError (msgNoExiste id_)), inv)
  | some p =>
    match p.con_cantidad nueva_cantidad with
    | .error e => (.error e, inv)
    | .ok actualizado =>
      (.ok actualizado, { inv with items := dictSet inv.items id_ actualizado })

/-- `actualizar_precio(id_, nuevo_precio)`. -/
def actualizar_precio (inv : Inventario) (id_ : String) (nuevo_precio : Rat) :
    Except PyError Producto × Inventario :=
  match mapGet inv.items id_ with
  | none => (.error (.keyError (msgNoExiste id_)), inv)
  | some p =>
    match p.con_precio nuevo_precio with
    | .error e => (.error e, inv)
    | .ok actualizado =>
      (.ok actualizado, { inv with items := dictSet inv.items id_ actualizado })

/-- `actualizar_nombre(id_, nuevo_nombre)`: note that the index entry for the
old name is removed *before* the renamed product is constructed, so a failing
construction leaves the index already mutated. -/
def actualizar_nombre (inv : Inventario) (id_ : String) (nuevo_nombre : String) :
    Except PyError Producto × Inventario :=
  match mapGet inv.items id_ with
  | none => (.error (.keyError (msgNoExiste id_)), inv)
  | some p =>
    let inv1 := index_remove inv p
    match p.con_nombre nuevo_nombre with
    | .error e => (.error e, inv1)
    | .ok actualizado =>
      let inv2 := { inv1 with items := dictSet inv1.items id_ actualizado }
      (.ok actualizado, index_add inv2 actualizado)

/-- Sort key comparison `(norm_name(p.nombre), p.id)`, lexicographic. -/
def claveLe (a b : Producto) : Bool :=
  decide (norm_name a.nombre < norm_name b.nombre ∨
    (norm_name a.nombre = norm_name b.nombre ∧ a.id ≤ b.id))

/-- `buscar_por_nombre(nombre, exacto)` (read-only; the source performs no
writes, so the embedding is a pure function of the state). -/
def buscar_por_nombre (inv : Inventario) (nombre : String) (exacto : Bool) :
    List Producto :=
  let q := norm_name nombre
  if exacto then
    ((mapGet inv.byName q).getD []).filterMap (mapGet inv.items)
  else
    let resultados := inv.byName.foldl
      (fun acc kv =>
        if contiene q kv.1 then acc ++ kv.2.filterMap (mapGet inv.items)
        else acc) []
    resultados.mergeSort claveLe

/-- `listar_todos()`. -/
def listar_todos (inv : Inventario) : List Producto :=
  (inv.items.map Prod.snd).mergeSort claveLe

end Inventario

/-- One record of the persisted JSON list, with the four mandatory fields
already extracted and coerced (the source's `str`/`int`/`float` coercions are
the identity on well-typed fields). -/
structure RawRecord : Type where
  id : String
  nombre : String
  cantidad : Int
  precio : Rat
deriving DecidableEq, Repr

/-- The product a record describes. -/
def RawRecord.producto (r : RawRecord) : Producto :=
  ⟨r.id, r.nombre, r.cantidad, r.precio⟩

/-- A parsed JSON document: either a list of records or any other root value
(an object, a number, ...). -/
inductive JsonDoc : Type
  | lista (records : List RawRecord)
  | noLista
deriving Repr

namespace Inventario

/-- `guardar_en_json`: the document written to disk. -/
def guardar_en_json (inv : Inventario) : List RawRecord :=
  (listar_todos inv).map (fun p => ⟨p.id, p.nombre, p.cantidad, p.precio⟩)

def msgFormato : String :=
  "Formato JSON inválido: se esperaba una lista de productos"

def msgRegistro (r : RawRecord) (e : PyError) : String :=
  "Registro inválido en JSON: " ++ r.id ++ " -> " ++
    (match e with
     | .valueError m => m
     | .keyError m => m)

/-- The `for obj in data` loop of `cargar_de_json`: validate each record and
apply it with `agregar(p, sobrescribir=True)`; a raise keeps the records
applied so far. -/
def cargarLoop (inv : Inventario) : List RawRecord → Except PyError Unit × Inventario
  | [] => (.ok (), inv)
  | r :: rest =>
    match Producto.build r.id r.nombre r.cantidad r.precio with
    | .error e => (.error (.valueError (msgRegistro r e)), inv)
    | .ok p =>
      match agregar inv p true with
      | (.ok _, inv') => cargarLoop inv' rest
      | (.error e, inv') => (.error e, inv')

/-- `cargar_de_json(ruta, modo)` after the file has been read and parsed. -/
def cargar_de_json (inv : Inventario) (doc : JsonDoc) (modo : String) :
    Except PyError Unit × Inventario :=
  match doc with
  | .noLista => (.error (.valueError msgFormato), inv)
  | .lista data =>
    let inv0 := if modo = "reemplazar" then vacio else inv
    cargarLoop inv0 data

end Inventario

namespace Inventario

/-- Membership of id `i` in the index bucket for `key`. -/
def idxMem (inv : Inventario) (key i : String) : Prop :=
  ∃ ids, mapGet inv.byName key = some ids ∧ i ∈ ids

instance (inv : Inventario) (key i : String) : Decidable (idxMem inv key i) :=
  decidable_of_iff (i ∈ (mapGet inv.byName key).getD [])
    (by cases h : mapGet inv.byName key <;> simp [idxMem, h])

/-- Id `i` is stored and its product's normalized name is `key`. -/
def apunta (inv : Inventario) (key i : String) : Prop :=
  ∃ p, mapGet inv.items i = some p ∧ norm_name p.nombre = key

instance (inv : Inventario) (key i : String) : Decidable (apunta inv key i) :=
  decidable_of_iff
    (Option.any (fun p => norm_name p.nombre == key) (mapGet inv.items i) = true)
    (by cases h : mapGet inv.items i <;> simp [apunta, h])

/-- The index-consistency invariant of the spec: primary keys unique and
entries well-keyed and valid; index keys unique; every bucket non-empty,
duplicate-free and pointing only at ids that currently hold its name; every
stored id present in the bucket of its current normalized name. -/
def wf (inv : Inventario) : Prop :=
  (inv.items.map Prod.fst).Nodup ∧
  (∀ kp ∈ inv.items, kp.2.id = kp.1 ∧ kp.2.valido) ∧
  (inv.byName.map Prod.fst).Nodup ∧
  (∀ kb ∈ inv.byName, kb.2 ≠ [] ∧ kb.2.Nodup ∧ ∀ i ∈ kb.2, apunta inv kb.1 i) ∧
  (∀ kp ∈ inv.items, idxMem inv (norm_name kp.2.nombre) kp.1)

instance (inv : Inventario) : Decidable (wf inv) := by
  unfold wf; infer_instance

end Inventario



/-! ## Association-list and id-set toolkit -/

section Toolkit

variable {β : Type}

@[simp] theorem mapGet_nil (k : String) : mapGet ([] : List (String × β)) k = none := rfl

theorem mapGet_dictSet_self (m : List (String × β)) (k : String) (v : β) :
    mapGet (dictSet m k v) k = some v := by
  induction m with
  | nil => simp [dictSet, mapGet]
  | cons kv rest ih =>
    obtain ⟨k', v'⟩ := kv
    by_cases h : k' = k <;> simp [dictSet, mapGet, h, ih]

theorem mapGet_dictSet_ne (m : List (String × β)) {k k' : String} (v : β)
    (h : k' ≠ k) : mapGet (dictSet m k v) k' = mapGet m k' := by
  induction m with
  | nil => simp [dictSet, mapGet, Ne.symm h]
  | cons kv rest ih =>
    obtain ⟨k₀, v₀⟩ := kv
    by_cases h0 : k₀ = k
    · subst h0
      simp [dictSet, mapGet, Ne.symm h]
    · simp [dictSet, mapGet, h0, ih]

theorem mem_of_mapGet {m : List (String × β)} {k : String} {v : β}
    (h : mapGet m k = some v) : (k, v) ∈ m := by
  induction m with
  | nil => simp [mapGet] at h
  | cons kv rest ih =>
    obtain ⟨k', v'⟩ := kv
    by_cases h0 : k' = k
    · subst h0
      rw [mapGet, if_pos rfl, Option.some_inj] at h
      subst h
      exact List.mem_cons_self _ _
    · rw [mapGet, if_neg h0] at h
      exact List.mem_cons_of_mem _ (ih h)

theorem mapGet_isSome_iff_mem_keys {m : List (String × β)} {k : String} :
    (mapGet m k).isSome ↔ k ∈ m.map Prod.fst := by
  induction m with
  | nil => simp [mapGet]
  | cons kv rest ih =>
    obtain ⟨k', v'⟩ := kv
    by_cases h0 : k' = k
    · subst h0
      simp [mapGet]
    · simp [mapGet, h0, ih, Ne.symm h0]

theorem mapGet_eq_none_iff {m : List (String × β)} {k : String} :
    mapGet m k = none ↔ k ∉ m.map Prod.fst := by
  rw [← mapGet_isSome_iff_mem_keys, ← Option.not_isSome_iff_eq_none]

theorem mapGet_of_mem {m : List (String × β)} (hnd : (m.map Prod.fst).Nodup)
    {k : String} {v : β} (h : (k, v) ∈ m) : mapGet m k = some v := by
  induction m with
  | nil => simp at h
  | cons kv rest ih =>
    obtain ⟨k', v'⟩ := kv
    rw [List.map_cons, List.nodup_cons] at hnd
    rcases List.mem_cons.1 h with h1 | h1
    · rw [Prod.mk.injEq] at h1
      obtain ⟨rfl, rfl⟩ := h1
      rw [mapGet, if_pos rfl]
    · have hk : k' ≠ k := by
        rintro rfl
        exact hnd.1 (List.mem_map.2 ⟨(k', v), h1, rfl⟩)
      rw [mapGet, if_neg hk]
      exact ih hnd.2 h1

/-- The ∀-over-entries form and the ∀-over-lookups form of a property agree
when keys are unique. -/
theorem ball_entries_iff {m : List (String × β)} (hnd : (m.map Prod.fst).Nodup)
    (P : String → β → Prop) :
    (∀ kv ∈ m, P kv.1 kv.2) ↔ (∀ k v, mapGet m k = some v → P k v) := by
  constructor
  · intro h k v hkv
    exact h (k, v) (mem_of_mapGet hkv)
  · intro h kv hkv
    exact h kv.1 kv.2 (mapGet_of_mem hnd hkv)

theorem keys_dictSet (m : List (String × β)) (k : String) (v : β) :
    (dictSet m k v).map Prod.fst =
      if k ∈ m.map Prod.fst then m.map Prod.fst else m.map Prod.fst ++ [k] := by
  induction m with
  | nil => simp [dictSet]
  | cons kv rest ih =>
    obtain ⟨k', v'⟩ := kv
    by_cases h0 : k' = k
    · subst h0
      simp [dictSet]
    · by_cases h1 : k ∈ rest.map Prod.fst <;>
        simp [dictSet, h0, ih, h1, Ne.symm h0]

theorem mem_keys_dictSet_iff (m : List (String × β)) (k x : String) (v : β) :
    x ∈ (dictSet m k v).map Prod.fst ↔ x = k ∨ x ∈ m.map Prod.fst := by
  rw [keys_dictSet]
  by_cases h : k ∈ m.map Prod.fst
  · simp only [if_pos h]
    constructor
    · exact Or.inr
    · rintro (rfl | hx)
      · exact h
      · exact hx
  · simp [if_neg h, or_comm]

theorem nodup_keys_dictSet {m : List (String × β)} (hnd : (m.map Prod.fst).Nodup)
    (k : String) (v : β) : ((dictSet m k v).map Prod.fst).Nodup := by
  rw [keys_dictSet]
  by_cases h : k ∈ m.map Prod.fst
  · simpa [if_pos h] using hnd
  · rw [if_neg h]
    exact List.Nodup.append hnd (List.nodup_singleton k)
      (fun a ha hb => h ((List.mem_singleton.1 hb) ▸ ha))

theorem dictRemove_sublist (m : List (String × β)) (k : String) :
    (dictRemove m k).Sublist m := by
  induction m with
  | nil => exact List.Sublist.refl _
  | cons kv rest ih =>
    obtain ⟨k', v'⟩ := kv
    by_cases h0 : k' = k
    · rw [dictRemove, if_pos h0]
      exact List.sublist_cons_self _ _
    · rw [dictRemove, if_neg h0]
      exact List.Sublist.cons₂ _ ih

theorem nodup_keys_dictRemove {m : List (String × β)}
    (hnd : (m.map Prod.fst).Nodup) (k : String) :
    ((dictRemove m k).map Prod.fst).Nodup :=
  ((dictRemove_sublist m k).map Prod.fst).nodup hnd

theorem mem_of_mem_dictRemove {m : List (String × β)} {k : String}
    {kv : String × β} (h : kv ∈ dictRemove m k) : kv ∈ m :=
  (dictRemove_sublist m k).mem h

theorem mapGet_dictRemove_self {m : List (String × β)}
    (hnd : (m.map Prod.fst).Nodup) (k : String) :
    mapGet (dictRemove m k) k = none := by
  induction m with
  | nil => simp [dictRemove]
  | cons kv rest ih =>
    obtain ⟨k', v'⟩ := kv
    rw [List.map_cons, List.nodup_cons] at hnd
    by_cases h0 : k' = k
    · subst h0
      rw [dictRemove, if_pos rfl, mapGet_eq_none_iff]
      exact hnd.1
    · rw [dictRemove, if_neg h0, mapGet, if_neg h0]
      exact ih hnd.2

theorem mapGet_dictRemove_ne (m : List (String × β)) {k k' : String}
    (h : k' ≠ k) : mapGet (dictRemove m k) k' = mapGet m k' := by
  induction m with
  | nil => simp [dictRemove]
  | cons kv rest ih =>
    obtain ⟨k₀, v₀⟩ := kv
    by_cases h0 : k₀ = k
    · subst h0
      rw [dictRemove, if_pos rfl, mapGet, if_neg (fun hh => h hh.symm)]
    · rw [dictRemove, if_neg h0, mapGet, mapGet]
      by_cases h1 : k₀ = k' <;> simp [h1, ih]

theorem mapGet_append (m1 m2 : List (String × β)) (k : String) :
    mapGet (m1 ++ m2) k =
      match mapGet m1 k with
      | some v => some v
      | none => mapGet m2 k := by
  induction m1 with
  | nil => simp [mapGet]
  | cons kv rest ih =>
    obtain ⟨k', v'⟩ := kv
    by_cases h0 : k' = k <;> simp [mapGet, h0, ih]

theorem dictSet_eq_append_of_absent {m : List (String × β)} {k : String}
    (h : mapGet m k = none) (v : β) : dictSet m k v = m ++ [(k, v)] := by
  induction m with
  | nil => simp [dictSet]
  | cons kv rest ih =>
    obtain ⟨k', v'⟩ := kv
    by_cases h0 : k' = k
    · rw [mapGet, if_pos h0] at h
      exact absurd h (by simp)
    · rw [mapGet, if_neg h0] at h
      simp [dictSet, h0, ih h]

theorem mem_setAdd_iff (s : List String) (x y : String) :
    y ∈ setAdd s x ↔ y ∈ s ∨ y = x := by
  unfold setAdd
  by_cases h : x ∈ s
  · simp only [if_pos h]
    constructor
    · exact Or.inl
    · rintro (hy | rfl)
      · exact hy
      · exact h
  · simp [if_neg h]

theorem nodup_setAdd {s : List String} (hnd : s.Nodup) (x : String) :
    (setAdd s x).Nodup := by
  unfold setAdd
  by_cases h : x ∈ s
  · simpa [if_pos h] using hnd
  · rw [if_neg h]
    exact List.Nodup.append hnd (List.nodup_singleton x)
      (fun a ha hb => h ((List.mem_singleton.1 hb) ▸ ha))

theorem setAdd_ne_nil (s : List String) (x : String) : setAdd s x ≠ [] := by
  unfold setAdd
  by_cases h : x ∈ s
  · rw [if_pos h]
    rintro rfl
    simp at h
  · rw [if_neg h]
    simp

theorem mem_setDiscard_iff (s : List String) (x y : String) :
    y ∈ setDiscard s x ↔ y ∈ s ∧ y ≠ x := by
  simp [setDiscard]

theorem nodup_setDiscard {s : List String} (hnd : s.Nodup) (x : String) :
    (setDiscard s x).Nodup := hnd.filter _

end Toolkit

/-! ## Index operation characterizations -/

namespace Inventario

theorem index_add_items (inv : Inventario) (p : Producto) :
    (index_add inv p).items = inv.items := rfl

theorem index_remove_items (inv : Inventario) (p : Producto) :
    (index_remove inv p).items = inv.items := by
  unfold index_remove
  split
  · rfl
  · split <;> rfl

theorem apunta_def (inv : Inventario) (key i : String) :
    apunta inv key i ↔ ∃ p, mapGet inv.items i = some p ∧ norm_name p.nombre = key :=
  Iff.rfl

theorem idxMem_iff_getD (inv : Inventario) (key i : String) :
    idxMem inv key i ↔ i ∈ (mapGet inv.byName key).getD [] := by
  cases h : mapGet inv.byName key <;> simp [idxMem, h]

theorem mapGet_index_add_self (inv : Inventario) (p : Producto) :
    mapGet (index_add inv p).byName (norm_name p.nombre) =
      some (setAdd ((mapGet inv.byName (norm_name p.nombre)).getD []) p.id) := by
  unfold index_add
  exact mapGet_dictSet_self _ _ _

theorem mapGet_index_add_ne (inv : Inventario) (p : Producto) {key : String}
    (h : key ≠ norm_name p.nombre) :
    mapGet (index_add inv p).byName key = mapGet inv.byName key := by
  unfold index_add
  exact mapGet_dictSet_ne _ _ h

theorem nodup_keys_index_add {inv : Inventario}
    (hnd : (inv.byName.map Prod.fst).Nodup) (p : Producto) :
    ((index_add inv p).byName.map Prod.fst).Nodup := by
  unfold index_add
  exact nodup_keys_dictSet hnd _ _

theorem idxMem_index_add_iff (inv : Inventario) (p : Producto) (key i : String) :
    idxMem (index_add inv p) key i ↔
      idxMem inv key i ∨ (key = norm_name p.nombre ∧ i = p.id) := by
  by_cases hk : key = norm_name p.nombre
  · subst hk
    rw [idxMem_iff_getD, mapGet_index_add_self]
    rw [Option.getD_some, mem_setAdd_iff, idxMem_iff_getD]
    tauto
  · rw [idxMem_iff_getD, mapGet_index_add_ne inv p hk, ← idxMem_iff_getD]
    simp [hk]

theorem mapGet_index_remove_ne (inv : Inventario) (p : Producto) {key : String}
    (h : key ≠ norm_name p.nombre) :
    mapGet (index_remove inv p).byName key = mapGet inv.byName key := by
  unfold index_remove
  split
  · rfl
  · split
    · exact mapGet_dictRemove_ne _ h
    · exact mapGet_dictSet_ne _ _ h

theorem nodup_keys_index_remove {inv : Inventario}
    (hnd : (inv.byName.map Prod.fst).Nodup) (p : Producto) :
    ((index_remove inv p).byName.map Prod.fst).Nodup := by
  unfold index_remove
  split
  · exact hnd
  · split
    · exact nodup_keys_dictRemove hnd _
    · exact nodup_keys_dictSet hnd _ _

theorem idxMem_index_remove_iff {inv : Inventario}
    (hnd : (inv.byName.map Prod.fst).Nodup) (p : Producto) (key i : String) :
    idxMem (index_remove inv p) key i ↔
      idxMem inv key i ∧ ¬(key = norm_name p.nombre ∧ i = p.id) := by
  by_cases hk : key = norm_name p.nombre
  · subst hk
    unfold index_remove
    by_cases he : (mapGet inv.byName (norm_name p.nombre)).getD [] = []
    · rw [if_pos he]
      rw [idxMem_iff_getD, he]
      simp
    · rw [if_neg he]
      by_cases hd : setDiscard ((mapGet inv.byName (norm_name p.nombre)).getD []) p.id = []
      · rw [if_pos hd]
        rw [idxMem_iff_getD]
        dsimp only
        rw [mapGet_dictRemove_self hnd]
        simp only [Option.getD_none, List.not_mem_nil, false_iff]
        rw [idxMem_iff_getD]
        rintro ⟨hi, hne⟩
        have hmem : i ∈ setDiscard ((mapGet inv.byName (norm_name p.nombre)).getD []) p.id :=
          (mem_setDiscard_iff _ _ _).2 ⟨hi, fun hh => hne (by simp [hh])⟩
        rw [hd] at hmem
        simp at hmem
      · rw [if_neg hd]
        rw [idxMem_iff_getD]
        dsimp only
        rw [mapGet_dictSet_self, Option.getD_some, mem_setDiscard_iff]
        rw [idxMem_iff_getD]
        constructor
        · rintro ⟨hi, hne⟩
          exact ⟨hi, fun hh => hne hh.2⟩
        · rintro ⟨hi, hne⟩
          exact ⟨hi, fun hh => hne ⟨rfl, hh⟩⟩
  · rw [idxMem_iff_getD, mapGet_index_remove_ne inv p hk, ← idxMem_iff_getD]
    simp [hk]

theorem mapGet_index_remove_cases {inv : Inventario}
    (hnd : (inv.byName.map Prod.fst).Nodup) (p : Producto) {key : String}
    {ids : List String}
    (h : mapGet (index_remove inv p).byName key = some ids) :
    (mapGet inv.byName key = some ids ∧ (key ≠ norm_name p.nombre ∨ ids = [])) ∨
      (key = norm_name p.nombre ∧
        ids = setDiscard ((mapGet inv.byName key).getD []) p.id ∧ ids ≠ []) := by
  by_cases hk : key = norm_name p.nombre
  · subst hk
    unfold index_remove at h
    by_cases he : (mapGet inv.byName (norm_name p.nombre)).getD [] = []
    · rw [if_pos he] at h
      rw [h] at he
      exact Or.inl ⟨h, Or.inr (by simpa using he)⟩
    · rw [if_neg he] at h
      by_cases hd : setDiscard ((mapGet inv.byName (norm_name p.nombre)).getD []) p.id = []
      · rw [if_pos hd] at h
        dsimp only at h
        rw [mapGet_dictRemove_self hnd] at h
        exact absurd h (by simp)
      · rw [if_neg hd] at h
        dsimp only at h
        rw [mapGet_dictSet_self, Option.some_inj] at h
        exact Or.inr ⟨rfl, h.symm, h ▸ hd⟩
  · rw [mapGet_index_remove_ne inv p hk] at h
    exact Or.inl ⟨h, Or.inl hk⟩

theorem mapGet_index_add_cases (inv : Inventario) (p : Producto) {key : String}
    {ids : List String}
    (h : mapGet (index_add inv p).byName key = some ids) :
    (mapGet inv.byName key = some ids ∧ key ≠ norm_name p.nombre) ∨
      (key = norm_name p.nombre ∧
        ids = setAdd ((mapGet inv.byName key).getD []) p.id) := by
  by_cases hk : key = norm_name p.nombre
  · subst hk
    rw [mapGet_index_add_self] at h
    exact Or.inr ⟨rfl, (Option.some_inj.1 h).symm⟩
  · rw [mapGet_index_add_ne inv p hk] at h
    exact Or.inl ⟨h, hk⟩

/-- `wf` in lookup form. -/
theorem wf_iff (inv : Inventario) : wf inv ↔
    (inv.items.map Prod.fst).Nodup ∧
    (inv.byName.map Prod.fst).Nodup ∧
    (∀ k p, mapGet inv.items k = some p → p.id = k ∧ p.valido) ∧
    (∀ key ids, mapGet inv.byName key = some ids →
      ids ≠ [] ∧ ids.Nodup ∧ ∀ i ∈ ids, apunta inv key i) ∧
    (∀ k p, mapGet inv.items k = some p → idxMem inv (norm_name p.nombre) k) := by
  unfold wf
  constructor
  · rintro ⟨h1, h2, h3, h4, h5⟩
    exact ⟨h1, h3, (ball_entries_iff h1 _).1 h2, (ball_entries_iff h3 _).1 h4,
      (ball_entries_iff h1 _).1 h5⟩
  · rintro ⟨h1, h3, h2, h4, h5⟩
    exact ⟨h1, (ball_entries_iff h1 _).2 h2, h3, (ball_entries_iff h3 _).2 h4,
      (ball_entries_iff h1 _).2 h5⟩

end Inventario

namespace Inventario

theorem idxMem_iff_of_byName {inv inv' : Inventario} (h : inv.byName = inv'.byName)
    (key i : String) : idxMem inv key i ↔ idxMem inv' key i := by
  unfold idxMem
  rw [h]

theorem apunta_iff_of_items {inv inv' : Inventario} (h : inv.items = inv'.items)
    (key i : String) : apunta inv key i ↔ apunta inv' key i := by
  unfold apunta
  rw [h]

end Inventario

/-! ## Producto construction lemmas -/

namespace Producto

theorem build_of_valido {p : Producto} (h : p.valido) :
    build p.id p.nombre p.cantidad p.precio = .ok p := by
  obtain ⟨i, n, c, pr⟩ := p
  obtain ⟨h1, h2, h3, h4⟩ := h
  unfold build
  rw [if_neg h1, if_neg h2, if_neg (not_lt.2 h3), if_neg (not_lt.2 h4)]

theorem build_ok_elim {i n : String} {c : Int} {pr : Rat} {q : Producto}
    (h : build i n c pr = .ok q) :
    q = ⟨i, n, c, pr⟩ ∧ q.valido := by
  unfold build at h
  split_ifs at h with h1 h2 h3 h4
  rw [Except.ok.injEq] at h
  subst h
  exact ⟨rfl, h1, h2, not_lt.1 h3, not_lt.1 h4⟩

theorem build_error_of_not_valido {i n : String} {c : Int} {pr : Rat}
    (h : ¬ (Producto.mk i n c pr).valido) :
    ∃ m, build i n c pr = .error (.valueError m) := by
  unfold build
  split_ifs with h1 h2 h3 h4
  · exact ⟨_, rfl⟩
  · exact ⟨_, rfl⟩
  · exact ⟨_, rfl⟩
  · exact ⟨_, rfl⟩
  · exact absurd ⟨h1, h2, not_lt.1 h3, not_lt.1 h4⟩ h

theorem con_nombre_empty {p : Producto} (h1 : p.id ≠ "") :
    p.con_nombre "" =
      .error (.valueError "Nombre de producto inválido (debe ser cadena no vacía)") := by
  unfold con_nombre build
  rw [if_neg h1, if_pos rfl]

theorem con_nombre_ok {p : Producto} {nm : String} (h1 : p.id ≠ "") (hn : nm ≠ "")
    (h3 : 0 ≤ p.cantidad) (h4 : 0 ≤ p.precio) :
    p.con_nombre nm = .ok ⟨p.id, nm, p.cantidad, p.precio⟩ := by
  unfold con_nombre build
  rw [if_neg h1, if_neg hn, if_neg (not_lt.2 h3), if_neg (not_lt.2 h4)]

theorem con_cantidad_neg {p : Producto} {n : Int} (h1 : p.id ≠ "")
    (h2 : p.nombre ≠ "") (h : n < 0) :
    p.con_cantidad n = .error (.valueError "Cantidad inválida (entero >= 0)") := by
  unfold con_cantidad build
  rw [if_neg h1, if_neg h2, if_pos h]

theorem con_cantidad_ok {p : Producto} {n : Int} (h1 : p.id ≠ "")
    (h2 : p.nombre ≠ "") (h : 0 ≤ n) (h4 : 0 ≤ p.precio) :
    p.con_cantidad n = .ok ⟨p.id, p.nombre, n, p.precio⟩ := by
  unfold con_cantidad build
  rw [if_neg h1, if_neg h2, if_neg (not_lt.2 h), if_neg (not_lt.2 h4)]

theorem con_precio_neg {p : Producto} {x : Rat} (h1 : p.id ≠ "")
    (h2 : p.nombre ≠ "") (h3 : 0 ≤ p.cantidad) (h : x < 0) :
    p.con_precio x = .error (.valueError "Precio inválido (número >= 0)") := by
  unfold con_precio build
  rw [if_neg h1, if_neg h2, if_neg (not_lt.2 h3), if_pos h]

theorem con_precio_ok {p : Producto} {x : Rat} (h1 : p.id ≠ "")
    (h2 : p.nombre ≠ "") (h3 : 0 ≤ p.cantidad) (h : 0 ≤ x) :
    p.con_precio x = .ok ⟨p.id, p.nombre, p.cantidad, x⟩ := by
  unfold con_precio build
  rw [if_neg h1, if_neg h2, if_neg (not_lt.2 h3), if_neg (not_lt.2 h)]

end Producto

/-! ## Operation branch lemmas -/

namespace Inventario

theorem agregar_dup {inv : Inventario} {p q : Producto}
    (h : mapGet inv.items p.id = some q) :
    agregar inv p false = (.error (.valueError (msgYaExiste p.id)), inv) := by
  unfold agregar
  rw [h]
  rfl

theorem agregar_true_fst (inv : Inventario) (p : Producto) :
    (agregar inv p true).1 = .ok () := by
  unfold agregar
  cases mapGet inv.items p.id <;> simp

theorem agregar_true_items (inv : Inventario) (p : Producto) :
    (agregar inv p true).2.items = dictSet inv.items p.id p := by
  unfold agregar
  cases mapGet inv.items p.id with
  | none => simp [index_add_items]
  | some q => simp [index_add_items, index_remove_items]

theorem mapGet_agregar_true (inv : Inventario) (p : Producto) (k : String) :
    mapGet (agregar inv p true).2.items k =
      if k = p.id then some p else mapGet inv.items k := by
  rw [agregar_true_items]
  by_cases h : k = p.id
  · subst h
    rw [if_pos rfl, mapGet_dictSet_self]
  · rw [if_neg h, mapGet_dictSet_ne _ _ h]

theorem eliminar_absent {inv : Inventario} {id_ : String}
    (h : mapGet inv.items id_ = none) :
    eliminar inv id_ = (.error (.keyError (msgNoExiste id_)), inv) := by
  unfold eliminar
  rw [h]

theorem eliminar_present {inv : Inventario} {id_ : String} {p : Producto}
    (h : mapGet inv.items id_ = some p) :
    eliminar inv id_ =
      (.ok p, index_remove (Inventario.mk (dictRemove inv.items id_) inv.byName) p) := by
  unfold eliminar
  rw [h]

theorem obtener_absent {inv : Inventario} {id_ : String}
    (h : mapGet inv.items id_ = none) :
    obtener_por_id inv id_ = .error (.keyError (msgNoExiste id_)) := by
  unfold obtener_por_id
  rw [h]

theorem obtener_present {inv : Inventario} {id_ : String} {p : Producto}
    (h : mapGet inv.items id_ = some p) : obtener_por_id inv id_ = .ok p := by
  unfold obtener_por_id
  rw [h]

theorem actualizar_cantidad_absent {inv : Inventario} {id_ : String} (n : Int)
    (h : mapGet inv.items id_ = none) :
    actualizar_cantidad inv id_ n = (.error (.keyError (msgNoExiste id_)), inv) := by
  unfold actualizar_cantidad
  rw [h]

theorem actualizar_cantidad_present_err {inv : Inventario} {id_ : String}
    {p : Producto} {n : Int} {e : PyError} (h : mapGet inv.items id_ = some p)
    (he : p.con_cantidad n = .error e) :
    actualizar_cantidad inv id_ n = (.error e, inv) := by
  unfold actualizar_cantidad
  rw [h]
  dsimp only
  rw [he]

theorem actualizar_cantidad_present_ok {inv : Inventario} {id_ : String}
    {p q : Producto} {n : Int} (h : mapGet inv.items id_ = some p)
    (hok : p.con_cantidad n = .ok q) :
    actualizar_cantidad inv id_ n =
      (.ok q, Inventario.mk (dictSet inv.items id_ q) inv.byName) := by
  unfold actualizar_cantidad
  rw [h]
  dsimp only
  rw [hok]

theorem actualizar_precio_absent {inv : Inventario} {id_ : String} (x : Rat)
    (h : mapGet inv.items id_ = none) :
    actualizar_precio inv id_ x = (.error (.keyError (msgNoExiste id_)), inv) := by
  unfold actualizar_precio
  rw [h]

theorem actualizar_precio_present_err {inv : Inventario} {id_ : String}
    {p : Producto} {x : Rat} {e : PyError} (h : mapGet inv.items id_ = some p)
    (he : p.con_precio x = .error e) :
    actualizar_precio inv id_ x = (.error e, inv) := by
  unfold actualizar_precio
  rw [h]
  dsimp only
  rw [he]

theorem actualizar_precio_present_ok {inv : Inventario} {id_ : String}
    {p q : Producto} {x : Rat} (h : mapGet inv.items id_ = some p)
    (hok : p.con_precio x = .ok q) :
    actualizar_precio inv id_ x =
      (.ok q, Inventario.mk (dictSet inv.items id_ q) inv.byName) := by
  unfold actualizar_precio
  rw [h]
  dsimp only
  rw [hok]

theorem actualizar_nombre_absent {inv : Inventario} {id_ : String} (nm : String)
    (h : mapGet inv.items id_ = none) :
    actualizar_nombre inv id_ nm = (.error (.keyError (msgNoExiste id_)), inv) := by
  unfold actualizar_nombre
  rw [h]

theorem actualizar_nombre_present_err {inv : Inventario} {id_ : String}
    {p : Producto} {nm : String} {e : PyError} (h : mapGet inv.items id_ = some p)
    (he : p.con_nombre nm = .error e) :
    actualizar_nombre inv id_ nm = (.error e, index_remove inv p) := by
  unfold actualizar_nombre
  rw [h]
  dsimp only
  rw [he]

theorem actualizar_nombre_present_ok {inv : Inventario} {id_ : String}
    {p q : Producto} {nm : String} (h : mapGet inv.items id_ = some p)
    (hok : p.con_nombre nm = .ok q) :
    actualizar_nombre inv id_ nm =
      (.ok q, index_add
        (Inventario.mk (dictSet (index_remove inv p).items id_ q)
          (index_remove inv p).byName) q) := by
  unfold actualizar_nombre
  rw [h]
  dsimp only
  rw [hok]

end Inventario

/-! ## Invariant preservation -/

namespace Inventario

theorem index_remove_byName_congr {inv inv' : Inventario}
    (h : inv.byName = inv'.byName) (p : Producto) :
    (index_remove inv p).byName = (index_remove inv' p).byName := by
  unfold index_remove
  rw [h]
  split
  · exact h
  · split <;> rfl

/-- Every bucket that survives `_index_remove p` is non-empty, duplicate-free,
free of `p.id`, and points only at ids that hold its name in the *old* items. -/
theorem bucket_index_remove_spec {inv : Inventario} (hwf : wf inv) {id_ : String}
    {p : Producto} (hm : mapGet inv.items id_ = some p) {key : String}
    {ids : List String} (hb : mapGet (index_remove inv p).byName key = some ids) :
    ids ≠ [] ∧ ids.Nodup ∧ ∀ i ∈ ids, i ≠ p.id ∧ apunta inv key i := by
  obtain ⟨hikeys, hbkeys, hitems, hbuckets, hcov⟩ := (wf_iff inv).1 hwf
  obtain ⟨hpid, hpv⟩ := hitems _ _ hm
  have hmp : mapGet inv.items p.id = some p := by rw [hpid]; exact hm
  rcases mapGet_index_remove_cases hbkeys p hb with ⟨hold, hcond⟩ | ⟨hkey, heq, hne⟩
  · obtain ⟨hne0, hnd0, hap0⟩ := hbuckets _ _ hold
    have hkne : key ≠ norm_name p.nombre := by
      rcases hcond with h | h
      · exact h
      · exact absurd h hne0
    refine ⟨hne0, hnd0, fun i hi => ?_⟩
    have hap := hap0 i hi
    refine ⟨?_, hap⟩
    rintro rfl
    obtain ⟨r, hr, hkeyr⟩ := hap
    rw [hmp, Option.some_inj] at hr
    subst hr
    exact hkne hkeyr.symm
  · subst hkey
    cases hb0 : mapGet inv.byName (norm_name p.nombre) with
    | none =>
      rw [hb0] at heq
      simp [setDiscard] at heq
      exact absurd heq hne
    | some ids0 =>
      rw [hb0] at heq
      simp only [Option.getD_some] at heq
      obtain ⟨hne0, hnd0, hap0⟩ := hbuckets _ _ hb0
      refine ⟨hne, ?_, fun i hi => ?_⟩
      · rw [heq]
        exact nodup_setDiscard hnd0 _
      · rw [heq, mem_setDiscard_iff] at hi
        exact ⟨hi.2, hap0 i hi.1⟩

/-- `eliminar` preserves the invariant, also when it fails. -/
theorem wf_eliminar {inv : Inventario} (hwf : wf inv) (id_ : String) :
    wf (eliminar inv id_).2 := by
  obtain ⟨hikeys, hbkeys, hitems, hbuckets, hcov⟩ := (wf_iff inv).1 hwf
  cases hm : mapGet inv.items id_ with
  | none =>
    rw [eliminar_absent hm]
    exact hwf
  | some p =>
    rw [eliminar_present hm]
    dsimp only
    obtain ⟨hpid, hpv⟩ := hitems _ _ hm
    rw [wf_iff]
    refine ⟨?_, ?_, ?_, ?_, ?_⟩
    · rw [index_remove_items]
      exact nodup_keys_dictRemove hikeys id_
    · exact @nodup_keys_index_remove
        (Inventario.mk (dictRemove inv.items id_) inv.byName) hbkeys p
    · intro k r hr
      have hr' : mapGet (dictRemove inv.items id_) k = some r := by
        rw [index_remove_items] at hr
        exact hr
      by_cases hk : k = id_
      · subst hk
        rw [mapGet_dictRemove_self hikeys] at hr'
        simp at hr'
      · rw [mapGet_dictRemove_ne _ hk] at hr'
        exact hitems _ _ hr'
    · intro key ids hb
      have hb' : mapGet (index_remove inv p).byName key = some ids := by
        rw [← index_remove_byName_congr
          (show (Inventario.mk (dictRemove inv.items id_) inv.byName).byName = inv.byName
            from rfl) p]
        exact hb
      obtain ⟨hne0, hnd0, hmem0⟩ := bucket_index_remove_spec hwf hm hb'
      refine ⟨hne0, hnd0, fun i hi => ?_⟩
      obtain ⟨hip, hap⟩ := hmem0 i hi
      obtain ⟨r, hr, hkeyr⟩ := hap
      refine ⟨r, ?_, hkeyr⟩
      have hine : i ≠ id_ := by
        rw [← hpid]
        exact hip
      rw [index_remove_items]
      show mapGet (dictRemove inv.items id_) i = some r
      rw [mapGet_dictRemove_ne _ hine]
      exact hr
    · intro k r hr
      have hr' : mapGet (dictRemove inv.items id_) k = some r := by
        rw [index_remove_items] at hr
        exact hr
      have hk : k ≠ id_ := by
        rintro rfl
        rw [mapGet_dictRemove_self hikeys] at hr'
        simp at hr'
      rw [mapGet_dictRemove_ne _ hk] at hr'
      have hidx := hcov _ _ hr'
      rw [@idxMem_index_remove_iff
        (Inventario.mk (dictRemove inv.items id_) inv.byName) hbkeys p]
      constructor
      · exact hidx
      · rintro ⟨_, hk2⟩
        exact hk (by rw [hk2, hpid])

end Inventario

namespace Inventario

/-- A successful `actualizar_nombre` preserves the invariant. -/
theorem wf_actualizar_nombre_ok {inv : Inventario} (hwf : wf inv) {id_ nm : String}
    {p q : Producto} (hm : mapGet inv.items id_ = some p)
    (hok : p.con_nombre nm = .ok q) :
    wf (actualizar_nombre inv id_ nm).2 := by
  obtain ⟨hikeys, hbkeys, hitems, hbuckets, hcov⟩ := (wf_iff inv).1 hwf
  obtain ⟨hpid, hpv⟩ := hitems _ _ hm
  obtain ⟨hqe, hqv⟩ := Producto.build_ok_elim
    (show Producto.build p.id nm p.cantidad p.precio = .ok q from hok)
  have hqid : q.id = id_ := by
    rw [hqe]
    exact hpid
  have hAitems : (index_remove inv p).items = inv.items := index_remove_items inv p
  rw [actualizar_nombre_present_ok hm hok]
  dsimp only
  rw [wf_iff]
  refine ⟨?_, ?_, ?_, ?_, ?_⟩
  · rw [index_add_items]
    show ((dictSet (index_remove inv p).items id_ q).map Prod.fst).Nodup
    rw [hAitems]
    exact nodup_keys_dictSet hikeys _ _
  · exact @nodup_keys_index_add
      (Inventario.mk (dictSet (index_remove inv p).items id_ q)
        (index_remove inv p).byName)
      (nodup_keys_index_remove hbkeys p) q
  · intro k r hr
    have hr' : mapGet (dictSet (index_remove inv p).items id_ q) k = some r := by
      rw [index_add_items] at hr
      exact hr
    rw [hAitems] at hr'
    by_cases hk : k = id_
    · subst hk
      rw [mapGet_dictSet_self] at hr'
      injection hr' with hr2
      subst hr2
      exact ⟨hqid, hqv⟩
    · rw [mapGet_dictSet_ne _ _ hk] at hr'
      exact hitems _ _ hr'
  · intro key ids hb
    rcases mapGet_index_add_cases
        (Inventario.mk (dictSet (index_remove inv p).items id_ q)
          (index_remove inv p).byName) q hb with ⟨hold, hkne⟩ | ⟨hkey, hidseq⟩
    · have hold' : mapGet (index_remove inv p).byName key = some ids := hold
      obtain ⟨hne0, hnd0, hmem0⟩ := bucket_index_remove_spec hwf hm hold'
      refine ⟨hne0, hnd0, fun i hi => ?_⟩
      obtain ⟨hip, r, hr, hkeyr⟩ := hmem0 i hi
      have hine : i ≠ id_ := by
        rw [← hpid]
        exact hip
      refine ⟨r, ?_, hkeyr⟩
      rw [index_add_items]
      show mapGet (dictSet (index_remove inv p).items id_ q) i = some r
      rw [hAitems, mapGet_dictSet_ne _ _ hine]
      exact hr
    · subst hkey
      dsimp only at hidseq
      cases hab : mapGet (index_remove inv p).byName (norm_name q.nombre) with
      | none =>
        rw [hab] at hidseq
        simp only [Option.getD_none] at hidseq
        simp only [setAdd, List.not_mem_nil, if_false, List.nil_append] at hidseq
        refine ⟨by rw [hidseq]; simp, by rw [hidseq]; simp, ?_⟩
        intro i hi
        rw [hidseq] at hi
        simp at hi
        subst hi
        refine ⟨q, ?_, rfl⟩
        rw [index_add_items]
        show mapGet (dictSet (index_remove inv p).items id_ q) q.id = some q
        rw [hAitems, hqid, mapGet_dictSet_self]
      | some ids1 =>
        rw [hab] at hidseq
        simp only [Option.getD_some] at hidseq
        obtain ⟨hne1, hnd1, hmem1⟩ := bucket_index_remove_spec hwf hm hab
        refine ⟨by rw [hidseq]; exact setAdd_ne_nil _ _,
          by rw [hidseq]; exact nodup_setAdd hnd1 _, ?_⟩
        intro i hi
        rw [hidseq, mem_setAdd_iff] at hi
        rcases hi with hi | rfl
        · obtain ⟨hip, r, hr, hkeyr⟩ := hmem1 i hi
          have hine : i ≠ id_ := by
            rw [← hpid]
            exact hip
          refine ⟨r, ?_, hkeyr⟩
          rw [index_add_items]
          show mapGet (dictSet (index_remove inv p).items id_ q) i = some r
          rw [hAitems, mapGet_dictSet_ne _ _ hine]
          exact hr
        · refine ⟨q, ?_, rfl⟩
          rw [index_add_items]
          show mapGet (dictSet (index_remove inv p).items id_ q) q.id = some q
          rw [hAitems, hqid, mapGet_dictSet_self]
  · intro k r hr
    have hr' : mapGet (dictSet (index_remove inv p).items id_ q) k = some r := by
      rw [index_add_items] at hr
      exact hr
    rw [hAitems] at hr'
    by_cases hk : k = id_
    · subst hk
      rw [mapGet_dictSet_self] at hr'
      injection hr' with hr2
      subst hr2
      rw [idxMem_index_add_iff]
      exact Or.inr ⟨rfl, hqid.symm⟩
    · rw [mapGet_dictSet_ne _ _ hk] at hr'
      have hidx := hcov _ _ hr'
      rw [idxMem_index_add_iff]
      left
      have hA : idxMem (index_remove inv p) (norm_name r.nombre) k := by
        rw [idxMem_index_remove_iff hbkeys p]
        refine ⟨hidx, ?_⟩
        rintro ⟨_, hk2⟩
        exact hk (hk2.trans hpid)
      exact hA

end Inventario

/-! ## Load-loop lemmas -/

theorem RawRecord.producto_id (r : RawRecord) : r.producto.id = r.id := rfl

namespace Inventario

theorem cargarLoop_cons_of_valido {inv : Inventario} {r : RawRecord}
    (rest : List RawRecord) (hr : r.producto.valido) :
    cargarLoop inv (r :: rest) = cargarLoop (agregar inv r.producto true).2 rest := by
  have hb : Producto.build r.id r.nombre r.cantidad r.precio = .ok r.producto :=
    Producto.build_of_valido hr
  rcases hE : agregar inv r.producto true with ⟨res, inv'⟩
  have hres : res = .ok () := by
    have h1 := agregar_true_fst inv r.producto
    rw [hE] at h1
    exact h1
  subst hres
  simp only [cargarLoop]
  rw [hb]
  dsimp only
  rw [hE]

theorem cargarLoop_error_at {inv : Inventario} {bad : RawRecord} {e : PyError}
    (rest : List RawRecord)
    (hbade : Producto.build bad.id bad.nombre bad.cantidad bad.precio = .error e) :
    cargarLoop inv (bad :: rest) = (.error (.valueError (msgRegistro bad e)), inv) := by
  unfold cargarLoop
  rw [hbade]

theorem cargarLoop_fst_ok {recs : List RawRecord} :
    ∀ {inv : Inventario}, (∀ r ∈ recs, r.producto.valido) →
      (cargarLoop inv recs).1 = .ok () := by
  induction recs with
  | nil => intro inv _; rfl
  | cons r rest ih =>
    intro inv hv
    rw [cargarLoop_cons_of_valido rest (hv r (List.mem_cons_self _ _))]
    exact ih (fun r' hr' => hv r' (List.mem_cons_of_mem _ hr'))

theorem cargarLoop_append_of_valid {recs1 : List RawRecord} :
    ∀ {inv : Inventario} (l : List RawRecord), (∀ r ∈ recs1, r.producto.valido) →
      cargarLoop inv (recs1 ++ l) = cargarLoop (cargarLoop inv recs1).2 l := by
  induction recs1 with
  | nil => intro inv l _; rfl
  | cons r rest ih =>
    intro inv l hv
    rw [List.cons_append,
      cargarLoop_cons_of_valido (rest ++ l) (hv r (List.mem_cons_self _ _)),
      ih l (fun r' hr' => hv r' (List.mem_cons_of_mem _ hr')),
      cargarLoop_cons_of_valido rest (hv r (List.mem_cons_self _ _))]

theorem cargarLoop_frame {recs : List RawRecord} :
    ∀ {inv : Inventario} {k : String}, (∀ r ∈ recs, r.producto.valido) →
      k ∉ recs.map RawRecord.id →
      mapGet (cargarLoop inv recs).2.items k = mapGet inv.items k := by
  induction recs with
  | nil => intro inv k _ _; rfl
  | cons r rest ih =>
    intro inv k hv hk
    rw [List.map_cons, List.mem_cons] at hk
    push_neg at hk
    rw [cargarLoop_cons_of_valido rest (hv r (List.mem_cons_self _ _))]
    rw [ih (fun r' hr' => hv r' (List.mem_cons_of_mem _ hr')) hk.2]
    rw [mapGet_agregar_true]
    have hne : k ≠ r.producto.id := hk.1
    rw [if_neg hne]

theorem cargarLoop_mem {recs : List RawRecord} :
    ∀ {inv : Inventario}, (∀ r ∈ recs, r.producto.valido) →
      (recs.map RawRecord.id).Nodup →
      ∀ r ∈ recs, mapGet (cargarLoop inv recs).2.items r.id = some r.producto := by
  induction recs with
  | nil => intro inv _ _ r hr; simp at hr
  | cons r0 rest ih =>
    intro inv hv hnd r hr
    rw [List.map_cons, List.nodup_cons] at hnd
    rw [cargarLoop_cons_of_valido rest (hv r0 (List.mem_cons_self _ _))]
    rcases List.mem_cons.1 hr with rfl | hr'
    · have hfr : r.id ∉ rest.map RawRecord.id := hnd.1
      rw [cargarLoop_frame (fun r' hr' => hv r' (List.mem_cons_of_mem _ hr')) hfr]
      rw [mapGet_agregar_true]
      have he : r.id = r.producto.id := rfl
      rw [if_pos he]
    · exact ih (fun r' hrr => hv r' (List.mem_cons_of_mem _ hrr)) hnd.2 r hr'

theorem cargarLoop_items_fresh {recs : List RawRecord} :
    ∀ {inv : Inventario}, (∀ r ∈ recs, r.producto.valido) →
      (∀ r ∈ recs, mapGet inv.items r.id = none) →
      (recs.map RawRecord.id).Nodup →
      (cargarLoop inv recs).2.items =
        inv.items ++ recs.map (fun r => (r.id, r.producto)) := by
  induction recs with
  | nil => intro inv _ _ _; simp [cargarLoop]
  | cons r rest ih =>
    intro inv hv hf hnd
    rw [List.map_cons, List.nodup_cons] at hnd
    rw [cargarLoop_cons_of_valido rest (hv r (List.mem_cons_self _ _))]
    have hfresh' : ∀ r' ∈ rest, mapGet (agregar inv r.producto true).2.items r'.id = none := by
      intro r' hr'
      rw [mapGet_agregar_true]
      have hne : r'.id ≠ r.producto.id := by
        intro hh
        apply hnd.1
        have hh' : r'.id = r.id := hh
        rw [← hh']
        exact List.mem_map.2 ⟨r', hr', rfl⟩
      rw [if_neg hne]
      exact hf r' (List.mem_cons_of_mem _ hr')
    rw [ih (fun r' hr' => hv r' (List.mem_cons_of_mem _ hr')) hfresh' hnd.2]
    rw [agregar_true_items]
    have hfr : mapGet inv.items r.producto.id = none := hf r (List.mem_cons_self _ _)
    rw [dictSet_eq_append_of_absent hfr]
    simp [List.append_assoc, RawRecord.producto_id]

end Inventario

/-! ## Search lemmas -/

namespace Inventario

theorem claveLe_iff (a b : Producto) : claveLe a b = true ↔
    (norm_name a.nombre < norm_name b.nombre ∨
      (norm_name a.nombre = norm_name b.nombre ∧ a.id ≤ b.id)) := by
  simp [claveLe]

theorem claveLe_trans (a b c : Producto) (h1 : claveLe a b = true)
    (h2 : claveLe b c = true) : claveLe a c = true := by
  rw [claveLe_iff] at h1 h2 ⊢
  rcases h1 with h1 | ⟨h1e, h1i⟩ <;> rcases h2 with h2 | ⟨h2e, h2i⟩
  · exact Or.inl (lt_trans h1 h2)
  · exact Or.inl (lt_of_lt_of_eq h1 h2e)
  · exact Or.inl (lt_of_eq_of_lt h1e h2)
  · exact Or.inr ⟨h1e.trans h2e, le_trans h1i h2i⟩

theorem claveLe_total (a b : Producto) : (claveLe a b || claveLe b a) = true := by
  rw [Bool.or_eq_true, claveLe_iff, claveLe_iff]
  rcases lt_trichotomy (norm_name a.nombre) (norm_name b.nombre) with h | h | h
  · exact Or.inl (Or.inl h)
  · rcases le_total a.id b.id with hi | hi
    · exact Or.inl (Or.inr ⟨h, hi⟩)
    · exact Or.inr (Or.inr ⟨h.symm, hi⟩)
  · exact Or.inr (Or.inl h)

theorem mem_buscar_acc (items : List (String × Producto)) (q : String) :
    ∀ (bn : List (String × List String)) (init : List Producto) (p : Producto),
      p ∈ bn.foldl (fun acc kv =>
          if contiene q kv.1 then acc ++ kv.2.filterMap (mapGet items) else acc) init ↔
        p ∈ init ∨ ∃ kv ∈ bn, contiene q kv.1 = true ∧
          ∃ i ∈ kv.2, mapGet items i = some p := by
  intro bn
  induction bn with
  | nil =>
    intro init p
    simp
  | cons kv rest ih =>
    intro init p
    rw [List.foldl_cons]
    by_cases hc : contiene q kv.1 = true
    · rw [if_pos hc, ih]
      simp only [List.mem_append, List.mem_filterMap, List.mem_cons]
      constructor
      · rintro ((hp | ⟨i, hi, hmi⟩) | ⟨kv', hkv', hc', w⟩)
        · exact Or.inl hp
        · exact Or.inr ⟨kv, Or.inl rfl, hc, i, hi, hmi⟩
        · exact Or.inr ⟨kv', Or.inr hkv', hc', w⟩
      · rintro (hp | ⟨kv', hkv'mem, hc', w⟩)
        · exact Or.inl (Or.inl hp)
        · rcases hkv'mem with rfl | hkv'
          · exact Or.inl (Or.inr w)
          · exact Or.inr ⟨kv', hkv', hc', w⟩
    · rw [if_neg hc, ih]
      simp only [List.mem_cons]
      constructor
      · rintro (hp | ⟨kv', hkv', hc', w⟩)
        · exact Or.inl hp
        · exact Or.inr ⟨kv', Or.inr hkv', hc', w⟩
      · rintro (hp | ⟨kv', hkv'mem, hc', w⟩)
        · exact Or.inl hp
        · rcases hkv'mem with rfl | hkv'
          · exact absurd hc' hc
          · exact Or.inr ⟨kv', hkv', hc', w⟩

theorem buscar_exacto_eq (inv : Inventario) (nombre : String) :
    buscar_por_nombre inv nombre true =
      ((mapGet inv.byName (norm_name nombre)).getD []).filterMap (mapGet inv.items) := by
  simp [buscar_por_nombre]

theorem buscar_noexacto_eq (inv : Inventario) (nombre : String) :
    buscar_por_nombre inv nombre false =
      (inv.byName.foldl (fun acc kv =>
        if contiene (norm_name nombre) kv.1 then
          acc ++ kv.2.filterMap (mapGet inv.items)
        else acc) []).mergeSort claveLe := by
  simp [buscar_por_nombre]

theorem buscar_exacto_spec {inv : Inventario} (hwf : wf inv) (nombre : String)
    (p : Producto) :
    p ∈ buscar_por_nombre inv nombre true ↔
      mapGet inv.items p.id = some p ∧
        norm_name p.nombre = norm_name nombre := by
  obtain ⟨hikeys, hbkeys, hitems, hbuckets, hcov⟩ := (wf_iff inv).1 hwf
  rw [buscar_exacto_eq, List.mem_filterMap]
  constructor
  · rintro ⟨i, hi, hmi⟩
    rcases hbq : mapGet inv.byName (norm_name nombre) with _ | ids
    · rw [hbq] at hi
      simp at hi
    · rw [hbq] at hi
      simp only [Option.getD_some] at hi
      obtain ⟨hne0, hnd0, hap⟩ := hbuckets _ _ hbq
      obtain ⟨r, hr, hkeyr⟩ := hap i hi
      rw [hmi, Option.some_inj] at hr
      subst hr
      refine ⟨?_, hkeyr⟩
      rw [(hitems _ _ hmi).1]
      exact hmi
  · rintro ⟨hmp, hkey⟩
    have hidx := hcov _ _ hmp
    obtain ⟨ids, hb, hi⟩ := hidx
    rw [hkey] at hb
    refine ⟨p.id, ?_, hmp⟩
    rw [hb]
    simpa using hi

theorem buscar_exacto_sin_bucket {inv : Inventario} {nombre : String}
    (h : mapGet inv.byName (norm_name nombre) = none) :
    buscar_por_nombre inv nombre true = [] := by
  rw [buscar_exacto_eq, h]
  rfl

theorem buscar_noexacto_spec {inv : Inventario} (hwf : wf inv) (nombre : String)
    (p : Producto) :
    p ∈ buscar_por_nombre inv nombre false ↔
      mapGet inv.items p.id = some p ∧
        contiene (norm_name nombre) (norm_name p.nombre) = true := by
  obtain ⟨hikeys, hbkeys, hitems, hbuckets, hcov⟩ := (wf_iff inv).1 hwf
  rw [buscar_noexacto_eq, List.mem_mergeSort, mem_buscar_acc]
  simp only [List.not_mem_nil, false_or]
  constructor
  · rintro ⟨kv, hkv, hc, i, hi, hmi⟩
    obtain ⟨hne0, hnd0, hap⟩ := hbuckets kv.1 kv.2 (mapGet_of_mem hbkeys hkv)
    obtain ⟨r, hr, hkeyr⟩ := hap i hi
    rw [hmi, Option.some_inj] at hr
    subst hr
    refine ⟨?_, ?_⟩
    · rw [(hitems _ _ hmi).1]
      exact hmi
    · rw [hkeyr]
      exact hc
  · rintro ⟨hmp, hc⟩
    have hidx := hcov _ _ hmp
    obtain ⟨ids, hb, hi⟩ := hidx
    exact ⟨(norm_name p.nombre, ids), mem_of_mapGet hb, hc, p.id, hi, hmp⟩

theorem buscar_noexacto_sorted (inv : Inventario) (nombre : String) :
    (buscar_por_nombre inv nombre false).Pairwise (fun a b => claveLe a b = true) := by
  rw [buscar_noexacto_eq]
  exact List.sorted_mergeSort claveLe_trans claveLe_total _

end Inventario

/-! ## Listing and persistence support lemmas -/

theorem record_producto (p : Producto) :
    (RawRecord.mk p.id p.nombre p.cantidad p.precio).producto = p := rfl

namespace Inventario

theorem mem_listar_todos (inv : Inventario) (p : Producto) :
    p ∈ listar_todos inv ↔ p ∈ inv.items.map Prod.snd := by
  unfold listar_todos
  exact List.mem_mergeSort

theorem guardar_map_producto (inv : Inventario) :
    (guardar_en_json inv).map RawRecord.producto = listar_todos inv := by
  unfold guardar_en_json
  rw [List.map_map]
  have h : ∀ p ∈ listar_todos inv,
      (RawRecord.producto ∘ fun p : Producto =>
        RawRecord.mk p.id p.nombre p.cantidad p.precio) p = id p :=
    fun p _ => record_producto p
  rw [List.map_congr_left h, List.map_id]

theorem guardar_map_id (inv : Inventario) :
    (guardar_en_json inv).map RawRecord.id = (listar_todos inv).map Producto.id := by
  unfold guardar_en_json
  rw [List.map_map]
  rfl

theorem guardar_valido {inv : Inventario} (hwf : wf inv) :
    ∀ r ∈ guardar_en_json inv, r.producto.valido := by
  obtain ⟨hikeys, hbkeys, hitems, hbuckets, hcov⟩ := (wf_iff inv).1 hwf
  intro r hr
  have hp : r.producto ∈ (guardar_en_json inv).map RawRecord.producto :=
    List.mem_map_of_mem _ hr
  rw [guardar_map_producto, mem_listar_todos] at hp
  obtain ⟨⟨k, p'⟩, hkp, he⟩ := List.mem_map.1 hp
  have hv := (hitems k p' (mapGet_of_mem hikeys hkp)).2
  exact he ▸ hv

theorem guardar_ids_nodup {inv : Inventario} (hwf : wf inv) :
    ((guardar_en_json inv).map RawRecord.id).Nodup := by
  obtain ⟨hikeys, hbkeys, hitems, hbuckets, hcov⟩ := (wf_iff inv).1 hwf
  rw [guardar_map_id]
  have hperm : List.Perm ((listar_todos inv).map Producto.id)
      ((inv.items.map Prod.snd).map Producto.id) :=
    (List.mergeSort_perm (inv.items.map Prod.snd) claveLe).map _
  have heq : (inv.items.map Prod.snd).map Producto.id = inv.items.map Prod.fst := by
    rw [List.map_map]
    exact List.map_congr_left
      (fun kp hkp => (hitems kp.1 kp.2 (mapGet_of_mem hikeys hkp)).1)
  have hnd : ((inv.items.map Prod.snd).map Producto.id).Nodup := by
    rw [heq]
    exact hikeys
  exact hperm.nodup_iff.2 hnd

theorem cargar_reemplazar_eq (inv : Inventario) (data : List RawRecord) :
    cargar_de_json inv (.lista data) "reemplazar" = cargarLoop vacio data := by
  unfold cargar_de_json
  dsimp only
  rw [if_pos rfl]

theorem cargar_fusionar_eq (inv : Inventario) (data : List RawRecord) :
    cargar_de_json inv (.lista data) "fusionar" = cargarLoop inv data := by
  unfold cargar_de_json
  dsimp only
  rw [if_neg (by decide : ¬("fusionar" : String) = "reemplazar")]

/-- After `_index_remove p` on a well-formed state that stores `p`, no bucket
contains `p.id` under any key. -/
theorem idxMem_remove_self_none {inv : Inventario} (hwf : wf inv) {id_ : String}
    {p : Producto} (hm : mapGet inv.items id_ = some p) (key : String) :
    ¬ idxMem (index_remove inv p) key id_ := by
  obtain ⟨hikeys, hbkeys, hitems, hbuckets, hcov⟩ := (wf_iff inv).1 hwf
  rintro ⟨ids, hb, hi⟩
  obtain ⟨hne0, hnd0, hmem⟩ := bucket_index_remove_spec hwf hm hb
  exact (hmem id_ hi).1 (hitems _ _ hm).1.symm

end Inventario

/-! ## Claim theorems -/

namespace Inventario

/-- C3: loading a document whose root is not a list under `modo="reemplazar"`
fails with the malformed-data `ValueError` and returns the inventory with both
the primary map and the index exactly as they were, because the shape check
precedes any clearing. -/
theorem cargar_noLista_reemplazar_spec (inv : Inventario) :
    cargar_de_json inv .noLista "reemplazar" =
      (.error (.valueError msgFormato), inv) := rfl

/-- C5: `cargar_de_json` with `modo="fusionar"` on a list of valid records
with distinct ids succeeds, stores for every file id exactly the record's
product (overwriting any previous product with that id), and leaves every id
not mentioned in the file untouched — merge deletes nothing. -/
theorem cargar_fusionar_spec (inv : Inventario) (recs : List RawRecord)
    (hv : ∀ r ∈ recs, r.producto.valido)
    (hnd : (recs.map RawRecord.id).Nodup) :
    (cargar_de_json inv (.lista recs) "fusionar").1 = .ok () ∧
    (∀ r ∈ recs,
      mapGet (cargar_de_json inv (.lista recs) "fusionar").2.items r.id =
        some r.producto) ∧
    (∀ k, k ∉ recs.map RawRecord.id →
      mapGet (cargar_de_json inv (.lista recs) "fusionar").2.items k =
        mapGet inv.items k) := by
  rw [cargar_fusionar_eq]
  exact ⟨cargarLoop_fst_ok hv, cargarLoop_mem hv hnd,
    fun k hk => cargarLoop_frame hv hk⟩

/-- C6: on a well-formed inventory, exact search returns exactly the stored
products whose normalized name equals the normalized query (and the empty
list when no bucket matches); substring search returns exactly the stored
products whose normalized name contains the normalized query, sorted
ascending by (normalized name, id). The embedding of search is a pure
function of the state, performing no mutation, as the source performs no
writes. -/
theorem buscar_por_nombre_spec {inv : Inventario} (hwf : wf inv)
    (nombre : String) :
    (∀ p, p ∈ buscar_por_nombre inv nombre true ↔
      mapGet inv.items p.id = some p ∧
        norm_name p.nombre = norm_name nombre) ∧
    (mapGet inv.byName (norm_name nombre) = none →
      buscar_por_nombre inv nombre true = []) ∧
    (∀ p, p ∈ buscar_por_nombre inv nombre false ↔
      mapGet inv.items p.id = some p ∧
        contiene (norm_name nombre) (norm_name p.nombre) = true) ∧
    (buscar_por_nombre inv nombre false).Pairwise
      (fun a b => claveLe a b = true) :=
  ⟨buscar_exacto_spec hwf nombre, fun h => buscar_exacto_sin_bucket h,
    buscar_noexacto_spec hwf nombre, buscar_noexacto_sorted inv nombre⟩

/-- C7: `agregar` with `sobrescribir=false` on an id that is already stored
fails with the duplicate-id `ValueError` and returns the inventory entirely
unchanged — in particular the existing entry and its index bucket are as
before. -/
theorem agregar_duplicado_spec {inv : Inventario} {p q : Producto}
    (h : mapGet inv.items p.id = some q) :
    agregar inv p false = (.error (.valueError (msgYaExiste p.id)), inv) :=
  agregar_dup h

end Inventario

namespace Inventario

/-- C9: `actualizar_cantidad` and `actualizar_precio` fail with the
not-found `KeyError` (state untouched) when the id is absent, propagate the
Product validation `ValueError` (state untouched) when the new value is
negative, and on success store a copy differing only in the quantity
(respectively price), return it, keep every other entry, and leave the name
index `_by_name` completely unchanged. -/
theorem actualizar_cantidad_precio_spec (inv : Inventario) (id_ : String)
    (n : Int) (x : Rat) :
    (mapGet inv.items id_ = none →
      actualizar_cantidad inv id_ n = (.error (.keyError (msgNoExiste id_)), inv) ∧
      actualizar_precio inv id_ x = (.error (.keyError (msgNoExiste id_)), inv)) ∧
    (∀ p, mapGet inv.items id_ = some p → p.valido →
      (n < 0 → actualizar_cantidad inv id_ n =
        (.error (.valueError "Cantidad inválida (entero >= 0)"), inv)) ∧
      (0 ≤ n →
        (actualizar_cantidad inv id_ n).1 = .ok ⟨p.id, p.nombre, n, p.precio⟩ ∧
        mapGet (actualizar_cantidad inv id_ n).2.items id_ =
          some ⟨p.id, p.nombre, n, p.precio⟩ ∧
        (∀ k, k ≠ id_ → mapGet (actualizar_cantidad inv id_ n).2.items k =
          mapGet inv.items k) ∧
        (actualizar_cantidad inv id_ n).2.byName = inv.byName) ∧
      (x < 0 → actualizar_precio inv id_ x =
        (.error (.valueError "Precio inválido (número >= 0)"), inv)) ∧
      (0 ≤ x →
        (actualizar_precio inv id_ x).1 = .ok ⟨p.id, p.nombre, p.cantidad, x⟩ ∧
        mapGet (actualizar_precio inv id_ x).2.items id_ =
          some ⟨p.id, p.nombre, p.cantidad, x⟩ ∧
        (∀ k, k ≠ id_ → mapGet (actualizar_precio inv id_ x).2.items k =
          mapGet inv.items k) ∧
        (actualizar_precio inv id_ x).2.byName = inv.byName)) := by
  constructor
  · intro h
    exact ⟨actualizar_cantidad_absent n h, actualizar_precio_absent x h⟩
  · intro p hm hv
    obtain ⟨h1, h2, h3, h4⟩ := hv
    refine ⟨?_, ?_, ?_, ?_⟩
    · intro hn
      exact actualizar_cantidad_present_err hm (Producto.con_cantidad_neg h1 h2 hn)
    · intro hn
      have hok := Producto.con_cantidad_ok h1 h2 hn h4
      rw [actualizar_cantidad_present_ok hm hok]
      refine ⟨rfl, ?_, ?_, rfl⟩
      · exact mapGet_dictSet_self _ _ _
      · intro k hk
        exact mapGet_dictSet_ne _ _ hk
    · intro hx
      exact actualizar_precio_present_err hm (Producto.con_precio_neg h1 h2 h3 hx)
    · intro hx
      have hok := Producto.con_precio_ok h1 h2 h3 hx
      rw [actualizar_precio_present_ok hm hok]
      refine ⟨rfl, ?_, ?_, rfl⟩
      · exact mapGet_dictSet_self _ _ _
      · intro k hk
        exact mapGet_dictSet_ne _ _ hk

end Inventario

namespace Inventario

/-- C2: `actualizar_nombre` fails with the not-found `KeyError` (state
untouched) when the id is absent, fails with the Product name-validation
`ValueError` when the new name is empty, and on success stores a product
identical to the old one except for the name, returns it, keeps every other
entry, puts the id in the bucket of the new normalized name, leaves it in no
other bucket, and yields a well-formed state (so the old bucket was pruned
if it became empty and holds no stale entry). -/
theorem actualizar_nombre_spec {inv : Inventario} (hwf : wf inv)
    (id_ nm : String) :
    (mapGet inv.items id_ = none →
      actualizar_nombre inv id_ nm = (.error (.keyError (msgNoExiste id_)), inv)) ∧
    (∀ p, mapGet inv.items id_ = some p → nm = "" →
      (actualizar_nombre inv id_ nm).1 =
        .error (.valueError "Nombre de producto inválido (debe ser cadena no vacía)")) ∧
    (∀ p, mapGet inv.items id_ = some p → nm ≠ "" →
      (actualizar_nombre inv id_ nm).1 = .ok ⟨p.id, nm, p.cantidad, p.precio⟩ ∧
      mapGet (actualizar_nombre inv id_ nm).2.items id_ =
        some ⟨p.id, nm, p.cantidad, p.precio⟩ ∧
      (∀ k, k ≠ id_ → mapGet (actualizar_nombre inv id_ nm).2.items k =
        mapGet inv.items k) ∧
      idxMem (actualizar_nombre inv id_ nm).2 (norm_name nm) id_ ∧
      (∀ key, key ≠ norm_name nm →
        ¬ idxMem (actualizar_nombre inv id_ nm).2 key id_) ∧
      wf (actualizar_nombre inv id_ nm).2) := by
  obtain ⟨hikeys, hbkeys, hitems, hbuckets, hcov⟩ := (wf_iff inv).1 hwf
  refine ⟨fun h => actualizar_nombre_absent nm h, ?_, ?_⟩
  · intro p hm hnm
    subst hnm
    obtain ⟨hpid, hpv⟩ := hitems _ _ hm
    rw [actualizar_nombre_present_err hm (Producto.con_nombre_empty hpv.1)]
  · intro p hm hnm
    obtain ⟨hpid, hpv⟩ := hitems _ _ hm
    have hok := Producto.con_nombre_ok hpv.1 hnm hpv.2.2.1 hpv.2.2.2
    refine ⟨?_, ?_, ?_, ?_, ?_, wf_actualizar_nombre_ok hwf hm hok⟩
    · rw [actualizar_nombre_present_ok hm hok]
    · rw [actualizar_nombre_present_ok hm hok]
      dsimp only
      rw [index_add_items]
      show mapGet (dictSet (index_remove inv p).items id_
        ⟨p.id, nm, p.cantidad, p.precio⟩) id_ = _
      rw [mapGet_dictSet_self]
    · intro k hk
      rw [actualizar_nombre_present_ok hm hok]
      dsimp only
      rw [index_add_items]
      show mapGet (dictSet (index_remove inv p).items id_
        ⟨p.id, nm, p.cantidad, p.precio⟩) k = _
      rw [mapGet_dictSet_ne _ _ hk, index_remove_items]
    · rw [actualizar_nombre_present_ok hm hok]
      dsimp only
      rw [idxMem_index_add_iff]
      exact Or.inr ⟨rfl, hpid.symm⟩
    · intro key hkey
      rw [actualizar_nombre_present_ok hm hok]
      dsimp only
      rw [idxMem_index_add_iff]
      rintro (hB | ⟨hk1, _⟩)
      · obtain ⟨ids, hb, hi⟩ := hB
        exact idxMem_remove_self_none hwf hm key ⟨ids, hb, hi⟩
      · exact hkey hk1

/-- C8: `eliminar` fails with the not-found `KeyError` (state untouched) when
the id is absent; otherwise it returns the removed product, removes the entry
from the primary map, keeps every other entry, removes the id from every
index bucket, and yields a well-formed state (pruned buckets); afterwards
`obtener_por_id` on the same id fails with the not-found `KeyError`. -/
theorem eliminar_spec {inv : Inventario} (hwf : wf inv) (id_ : String) :
    (mapGet inv.items id_ = none →
      eliminar inv id_ = (.error (.keyError (msgNoExiste id_)), inv) ∧
      obtener_por_id inv id_ = .error (.keyError (msgNoExiste id_))) ∧
    (∀ p, mapGet inv.items id_ = some p →
      (eliminar inv id_).1 = .ok p ∧
      mapGet (eliminar inv id_).2.items id_ = none ∧
      (∀ k, k ≠ id_ → mapGet (eliminar inv id_).2.items k = mapGet inv.items k) ∧
      (∀ key, ¬ idxMem (eliminar inv id_).2 key id_) ∧
      wf (eliminar inv id_).2 ∧
      obtener_por_id (eliminar inv id_).2 id_ =
        .error (.keyError (msgNoExiste id_))) := by
  obtain ⟨hikeys, hbkeys, hitems, hbuckets, hcov⟩ := (wf_iff inv).1 hwf
  constructor
  · intro h
    exact ⟨eliminar_absent h, obtener_absent h⟩
  · intro p hm
    obtain ⟨hpid, hpv⟩ := hitems _ _ hm
    have hnone : mapGet (eliminar inv id_).2.items id_ = none := by
      rw [eliminar_present hm]
      dsimp only
      rw [index_remove_items]
      show mapGet (dictRemove inv.items id_) id_ = none
      rw [mapGet_dictRemove_self hikeys]
    refine ⟨?_, hnone, ?_, ?_, wf_eliminar hwf id_, obtener_absent hnone⟩
    · rw [eliminar_present hm]
    · intro k hk
      rw [eliminar_present hm]
      dsimp only
      rw [index_remove_items]
      show mapGet (dictRemove inv.items id_) k = _
      rw [mapGet_dictRemove_ne _ hk]
    · intro key
      rw [eliminar_present hm]
      dsimp only
      rintro ⟨ids, hb, hi⟩
      rw [index_remove_byName_congr
        (show (Inventario.mk (dictRemove inv.items id_) inv.byName).byName = inv.byName
          from rfl) p] at hb
      exact idxMem_remove_self_none hwf hm key ⟨ids, hb, hi⟩

end Inventario

namespace Inventario

/-- C10: replace-mode load of a list whose records are valid up to an invalid
record reports a record-level `ValueError`, but the prior contents are
already gone: the resulting state holds exactly the valid records preceding
the offending one — record failures are not rolled back. -/
theorem cargar_reemplazar_parcial_spec (inv : Inventario)
    (recs1 : List RawRecord) (bad : RawRecord) (rest : List RawRecord)
    (hv : ∀ r ∈ recs1, r.producto.valido)
    (hnd : (recs1.map RawRecord.id).Nodup)
    (hbad : ¬ bad.producto.valido) :
    (∃ m, (cargar_de_json inv (.lista (recs1 ++ bad :: rest)) "reemplazar").1 =
      .error (.valueError m)) ∧
    (∀ r ∈ recs1,
      mapGet (cargar_de_json inv
        (.lista (recs1 ++ bad :: rest)) "reemplazar").2.items r.id =
          some r.producto) ∧
    (∀ k, k ∉ recs1.map RawRecord.id →
      mapGet (cargar_de_json inv
        (.lista (recs1 ++ bad :: rest)) "reemplazar").2.items k = none) := by
  have hbad' : ¬ (Producto.mk bad.id bad.nombre bad.cantidad bad.precio).valido := hbad
  obtain ⟨m, he⟩ := Producto.build_error_of_not_valido hbad'
  rw [cargar_reemplazar_eq, cargarLoop_append_of_valid (bad :: rest) hv,
    cargarLoop_error_at rest he]
  refine ⟨⟨msgRegistro bad (.valueError m), rfl⟩, ?_, ?_⟩
  · intro r hr
    exact cargarLoop_mem hv hnd r hr
  · intro k hk
    exact (cargarLoop_frame hv hk).trans rfl

/-- C4: saving a non-empty well-formed inventory and loading the document
into a fresh empty inventory with `modo="reemplazar"` succeeds and yields
exactly the same set of products (same id, name, quantity and price). -/
theorem guardar_cargar_roundtrip {inv : Inventario} (hwf : wf inv)
    (hne : inv.items ≠ []) :
    (cargar_de_json vacio (.lista (guardar_en_json inv)) "reemplazar").1 =
      .ok () ∧
    ∀ p : Producto,
      (p ∈ (cargar_de_json vacio
          (.lista (guardar_en_json inv)) "reemplazar").2.items.map Prod.snd ↔
        p ∈ inv.items.map Prod.snd) := by
  have hv := guardar_valido hwf
  have hnd := guardar_ids_nodup hwf
  have hfresh : ∀ r ∈ guardar_en_json inv, mapGet vacio.items r.id = none :=
    fun r _ => rfl
  rw [cargar_reemplazar_eq]
  refine ⟨cargarLoop_fst_ok hv, ?_⟩
  intro p
  have hload := cargarLoop_items_fresh hv hfresh hnd
  rw [hload]
  show p ∈ (([] : List (String × Producto)) ++
      (guardar_en_json inv).map (fun r => (r.id, r.producto))).map Prod.snd ↔ _
  rw [List.nil_append, List.map_map]
  have hcomp : (guardar_en_json inv).map
      (Prod.snd ∘ fun r : RawRecord => (r.id, r.producto)) =
      (guardar_en_json inv).map RawRecord.producto := rfl
  rw [hcomp, guardar_map_producto, mem_listar_todos]

/-- C1: the index-consistency invariant does NOT survive every failing call:
after `agregar` of product "A1" named "Boli" and the failing call
`actualizar_nombre "A1" ""` (empty new name), the name validation error is
raised only after `_index_remove` already ran, so "A1" is still stored with
name "Boli" but the bucket for its normalized name is gone and the invariant
is violated. -/
theorem invariante_roto_por_rename_fallido :
    (actualizar_nombre (agregar vacio ⟨"A1", "Boli", 1, 1⟩ false).2 "A1" "").1 =
        .error (.valueError
          "Nombre de producto inválido (debe ser cadena no vacía)") ∧
    mapGet (actualizar_nombre
        (agregar vacio ⟨"A1", "Boli", 1, 1⟩ false).2 "A1" "").2.items "A1" =
      some ⟨"A1", "Boli", 1, 1⟩ ∧
    ¬ idxMem (actualizar_nombre
        (agregar vacio ⟨"A1", "Boli", 1, 1⟩ false).2 "A1" "").2
      (norm_name "Boli") "A1" ∧
    ¬ wf (actualizar_nombre
        (agregar vacio ⟨"A1", "Boli", 1, 1⟩ false).2 "A1" "").2 := by
  decide

end Inventario

/-! ## Witnesses -/

namespace Inventario

theorem actualizar_nombre_spec_witness :
    wf (Inventario.mk [("A1", ⟨"A1", "Boli", 1, 1⟩)] [("boli", ["A1"])]) ∧
    (actualizar_nombre
        (Inventario.mk [("A1", ⟨"A1", "Boli", 1, 1⟩)] [("boli", ["A1"])])
        "A1" "Lapiz").1 = .ok ⟨"A1", "Lapiz", 1, 1⟩ :=
  ⟨by decide,
    ((actualizar_nombre_spec (by decide) "A1" "Lapiz").2.2
      ⟨"A1", "Boli", 1, 1⟩ (by decide) (by decide)).1⟩

theorem guardar_cargar_roundtrip_witness :
    (wf (Inventario.mk [("A1", ⟨"A1", "Boli", 1, 1⟩)] [("boli", ["A1"])]) ∧
      (Inventario.mk [("A1", ⟨"A1", "Boli", 1, 1⟩)] [("boli", ["A1"])]).items ≠ []) ∧
    (cargar_de_json vacio
      (.lista (guardar_en_json
        (Inventario.mk [("A1", ⟨"A1", "Boli", 1, 1⟩)] [("boli", ["A1"])])))
      "reemplazar").1 = .ok () :=
  ⟨⟨by decide, by decide⟩,
    (guardar_cargar_roundtrip (by decide) (by decide)).1⟩

theorem cargar_fusionar_spec_witness :
    mapGet (cargar_de_json
        (Inventario.mk [("A1", ⟨"A1", "Lapiz", 5, 1⟩)] [("lapiz", ["A1"])])
        (.lista [⟨"A1", "Lapiz", 9, 1⟩, ⟨"B2", "Goma", 1, 1⟩])
        "fusionar").2.items "A1" =
      some ⟨"A1", "Lapiz", 9, 1⟩ ∧
    mapGet (cargar_de_json
        (Inventario.mk [("A1", ⟨"A1", "Lapiz", 5, 1⟩)] [("lapiz", ["A1"])])
        (.lista [⟨"A1", "Lapiz", 9, 1⟩, ⟨"B2", "Goma", 1, 1⟩])
        "fusionar").2.items "B2" =
      some ⟨"B2", "Goma", 1, 1⟩ :=
  ⟨(cargar_fusionar_spec
      (Inventario.mk [("A1", ⟨"A1", "Lapiz", 5, 1⟩)] [("lapiz", ["A1"])])
      [⟨"A1", "Lapiz", 9, 1⟩, ⟨"B2", "Goma", 1, 1⟩]
      (by decide) (by decide)).2.1 ⟨"A1", "Lapiz", 9, 1⟩ (by decide),
    (cargar_fusionar_spec
      (Inventario.mk [("A1", ⟨"A1", "Lapiz", 5, 1⟩)] [("lapiz", ["A1"])])
      [⟨"A1", "Lapiz", 9, 1⟩, ⟨"B2", "Goma", 1, 1⟩]
      (by decide) (by decide)).2.1 ⟨"B2", "Goma", 1, 1⟩ (by decide)⟩

theorem buscar_por_nombre_spec_witness :
    wf (Inventario.mk
      [("A1", ⟨"A1", "Red Pen", 1, 1⟩), ("B2", ⟨"B2", "red pencil", 2, 2⟩),
        ("C3", ⟨"C3", "Blue Pen", 3, 3⟩)]
      [("red pen", ["A1"]), ("red pencil", ["B2"]), ("blue pen", ["C3"])]) ∧
    ((⟨"C3", "Blue Pen", 3, 3⟩ : Producto) ∈ buscar_por_nombre
      (Inventario.mk
        [("A1", ⟨"A1", "Red Pen", 1, 1⟩), ("B2", ⟨"B2", "red pencil", 2, 2⟩),
          ("C3", ⟨"C3", "Blue Pen", 3, 3⟩)]
        [("red pen", ["A1"]), ("red pencil", ["B2"]), ("blue pen", ["C3"])])
      "pen" false ↔
      mapGet (Inventario.mk
        [("A1", ⟨"A1", "Red Pen", 1, 1⟩), ("B2", ⟨"B2", "red pencil", 2, 2⟩),
          ("C3", ⟨"C3", "Blue Pen", 3, 3⟩)]
        [("red pen", ["A1"]), ("red pencil", ["B2"]), ("blue pen", ["C3"])]).items
          (Producto.mk "C3" "Blue Pen" 3 3).id = some ⟨"C3", "Blue Pen", 3, 3⟩ ∧
      contiene (norm_name "pen")
        (norm_name (Producto.mk "C3" "Blue Pen" 3 3).nombre) = true) :=
  ⟨by decide,
    (buscar_por_nombre_spec (by decide) "pen").2.2.1 ⟨"C3", "Blue Pen", 3, 3⟩⟩

theorem agregar_duplicado_spec_witness :
    agregar (Inventario.mk [("A1", ⟨"A1", "Boli", 1, 1⟩)] [("boli", ["A1"])])
      ⟨"A1", "Otro", 2, 2⟩ false =
    (.error (.valueError (msgYaExiste (Producto.mk "A1" "Otro" 2 2).id)),
      Inventario.mk [("A1", ⟨"A1", "Boli", 1, 1⟩)] [("boli", ["A1"])]) :=
  agregar_duplicado_spec
    (show mapGet (Inventario.mk [("A1", ⟨"A1", "Boli", 1, 1⟩)]
        [("boli", ["A1"])]).items (Producto.mk "A1" "Otro" 2 2).id =
      some ⟨"A1", "Boli", 1, 1⟩ from by decide)

theorem eliminar_spec_witness :
    wf (Inventario.mk [("A1", ⟨"A1", "Boli", 1, 1⟩)] [("boli", ["A1"])]) ∧
    (eliminar (Inventario.mk [("A1", ⟨"A1", "Boli", 1, 1⟩)] [("boli", ["A1"])])
      "A1").1 = .ok ⟨"A1", "Boli", 1, 1⟩ :=
  ⟨by decide,
    ((eliminar_spec (by decide) "A1").2 ⟨"A1", "Boli", 1, 1⟩ (by decide)).1⟩

theorem actualizar_cantidad_precio_spec_witness :
    (actualizar_cantidad
      (Inventario.mk [("A1", ⟨"A1", "Boli", 1, 1⟩)] [("boli", ["A1"])])
      "A1" 7).1 = .ok ⟨"A1", "Boli", 7, 1⟩ :=
  (((actualizar_cantidad_precio_spec
      (Inventario.mk [("A1", ⟨"A1", "Boli", 1, 1⟩)] [("boli", ["A1"])])
      "A1" 7 2).2 ⟨"A1", "Boli", 1, 1⟩ (by decide) (by decide)).2.1
    (by decide)).1

theorem cargar_reemplazar_parcial_spec_witness :
    mapGet (cargar_de_json
        (Inventario.mk [("Z9", ⟨"Z9", "Viejo", 4, 4⟩)] [("viejo", ["Z9"])])
        (.lista ([⟨"A1", "Boli", 1, 1⟩] ++ (⟨"B2", "Mal", -1, 1⟩ : RawRecord) :: []))
        "reemplazar").2.items "A1" =
      some (RawRecord.mk "A1" "Boli" 1 1).producto :=
  (cargar_reemplazar_parcial_spec
      (Inventario.mk [("Z9", ⟨"Z9", "Viejo", 4, 4⟩)] [("viejo", ["Z9"])])
      [⟨"A1", "Boli", 1, 1⟩] ⟨"B2", "Mal", -1, 1⟩ []
      (by decide) (by decide) (by decide)).2.1
    ⟨"A1", "Boli", 1, 1⟩ (by decide)

end Inventario
